import Mathlib

/-!
Verification of the wms-glm repository against its specification.

The definitions below are a shallow embedding of the JavaScript sources
under `src/frontend/src/` (each definition's doc comment names the file and
function it embeds).  The recording pipeline described in the spec
(Recorder / Frame Distributor) has no implementation under `src/`; those
parts are modelled from the spec's words and say so in their doc comments.
-/

set_option maxHeartbeats 1000000

namespace VMS

/-! Embedding of `src/frontend/src/utils/constants.js`, object `DEFAULTS`. -/

/-- constants.js `DEFAULTS.WS_RECONNECT_DELAY : 5000`. -/
def WS_RECONNECT_DELAY : Nat := 5000

/-- constants.js `DEFAULTS.WS_MAX_RECONNECT_ATTEMPTS : 10`.  This constant is
defined in constants.js but is referenced nowhere else in the repository. -/
def WS_MAX_RECONNECT_ATTEMPTS : Nat := 10

/-! Embedding of `src/frontend/src/hooks/useWebSocket.js`. -/

/-- useWebSocket.js, `onclose` handler: the delay (ms) scheduled before
reconnect attempt number `attempt` is the literal `5000` in
`setTimeout(() => connect(), 5000)`; the handler keeps no attempt counter,
so the delay cannot depend on the attempt number. -/
def reconnectDelayMs (_attempt : Nat) : Nat := 5000

/-- State of the useWebSocket hook's mutable refs and pending browser tasks:
`wsAlive` — `wsRef.current` holds a socket that is open;
`closePending` — a close event for the current/last socket has been queued
but its `onclose` handler has not run yet;
`pendingTimer` — `reconnectTimeoutRef.current` holds an unexpired timeout;
`connectsOpened` — how many times `connect()` has constructed a WebSocket. -/
structure WsState where
  wsAlive : Bool
  closePending : Bool
  pendingTimer : Bool
  connectsOpened : Nat
deriving DecidableEq

/-- External events driving the hook: a transport drop closes the open
socket; the queued close event fires the `onclose` handler; the 5000 ms
timeout fires and calls `connect()`; the component calls `disconnect()`. -/
inductive WsEvent where
  | transportDrop
  | closeFires
  | timerFires
  | userDisconnect
deriving DecidableEq

/-- One step of useWebSocket.js:
`transportDrop` — the network kills the open socket, queueing a close event;
`closeFires` — the `onclose` handler runs `reconnectTimeoutRef.current =
setTimeout(() => connect(), 5000)` unconditionally (it is still attached
even if the socket was closed by `disconnect()`);
`timerFires` — the timeout elapses and `connect()` builds a new WebSocket;
`userDisconnect` — `disconnect()` runs `clearTimeout` and `close()`, which
queues a close event for the socket but does not detach its handlers. -/
def wsStep (s : WsState) (e : WsEvent) : WsState :=
  match e with
  | .transportDrop =>
      if s.wsAlive then { s with wsAlive := false, closePending := true } else s
  | .closeFires =>
      if s.closePending then { s with closePending := false, pendingTimer := true } else s
  | .timerFires =>
      if s.pendingTimer then
        { s with pendingTimer := false, wsAlive := true,
                 connectsOpened := s.connectsOpened + 1 }
      else s
  | .userDisconnect =>
      if s.wsAlive then { s with wsAlive := false, closePending := true, pendingTimer := false }
      else { s with pendingTimer := false }

/-- Run the hook over a sequence of events. -/
def wsRun (s : WsState) (es : List WsEvent) : WsState := es.foldl wsStep s

/-- Builds `n` consecutive failed-reconnect cycles: the socket drops, its close
event fires (scheduling the timer), and the timer fires (opening the next
connection, which drops again at the start of the next cycle). -/
def dropCycles : Nat → List WsEvent
  | 0 => []
  | n + 1 => .transportDrop :: .closeFires :: .timerFires :: dropCycles n

/-- C1 (counterexample): the claim says the delay before attempt `n` is a
strictly increasing (up to the cap) function of `n`, not a constant.  In the
code the delay before attempt 1 is not larger than the delay before attempt
0, and the first twenty attempts all get exactly 5000 ms. -/
theorem reconnect_delay_not_strictly_increasing :
    ¬ reconnectDelayMs 0 < reconnectDelayMs 1 ∧
      (List.range 20).map reconnectDelayMs = List.replicate 20 5000 := by
  decide

/-- C1 (amended): for every connection loss the onclose handler schedules the
next connection attempt after the constant delay `WS_RECONNECT_DELAY =
5000` ms, independent of the attempt number; there is no exponential growth,
jitter, cap, or attempt counter. -/
theorem reconnect_delay_constant (n : Nat) :
    reconnectDelayMs n = WS_RECONNECT_DELAY := rfl

/-- C1 (witness): the amended theorem evaluated at attempt 7. -/
theorem reconnect_delay_constant_witness :
    reconnectDelayMs 7 = WS_RECONNECT_DELAY := reconnect_delay_constant 7

/-- C2: after eleven consecutive failed reconnect cycles — one more than
`WS_MAX_RECONNECT_ATTEMPTS` — the hook has opened eleven further connections
and is still live and ready to schedule the next retry; the cap constant is
never consulted and the hook has no Failed state at all. -/
theorem reconnect_exceeds_max_attempts :
    WS_MAX_RECONNECT_ATTEMPTS < (wsRun ⟨true, false, false, 0⟩ (dropCycles 11)).connectsOpened ∧
      (wsRun ⟨true, false, false, 0⟩ (dropCycles 11)).wsAlive = true ∧
      (wsStep (wsRun ⟨true, false, false, 0⟩ (dropCycles 11)) .transportDrop).closePending = true := by
  decide

/-- C3: calling `disconnect()` on an open socket clears the pending timer,
but the closed socket's close event still runs the attached `onclose`
handler, which schedules a fresh reconnect timer; when that timer fires,
`connect()` opens a brand-new connection. -/
theorem disconnect_then_reconnect_scheduled :
    (wsRun ⟨true, false, false, 0⟩ [.userDisconnect, .closeFires]).pendingTimer = true ∧
      (wsRun ⟨true, false, false, 0⟩
        [.userDisconnect, .closeFires, .timerFires]).connectsOpened = 1 ∧
      (wsRun ⟨true, false, false, 0⟩
        [.userDisconnect, .closeFires, .timerFires]).wsAlive = true := by
  decide

/-! Embedding of `src/frontend/src/store/eventStore.js` (the part the claims
touch).  Events are kept abstract in the element type `α`. -/

/-- The fields of the zustand event store that `addEvent` can see. -/
structure EventStoreState (α : Type) where
  events : List α
  selectedEvent : Option α
  error : Option String
deriving DecidableEq

/-- eventStore.js `addEvent`: `set((state) => ({ events: [event,
...state.events] }))` — prepends the incoming event to the stored list,
leaving the other fields alone.  There is no capacity check. -/
def addEvent {α : Type} (event : α) (s : EventStoreState α) : EventStoreState α :=
  { s with events := event :: s.events }

/-- A whole incoming WebSocket event sequence applied to the store in
arrival order. -/
def addEvents {α : Type} (es : List α) (s : EventStoreState α) : EventStoreState α :=
  es.foldl (fun st e => addEvent e st) s

/-- C4 (counterexample): the claim says that after adding an event the
stored list never exceeds a fixed capacity of 1,000 with oldest events
dropped.  From a store already holding 1,000 events, one more `addEvent`
yields 1,001 stored events and the oldest event is still present. -/
theorem add_event_exceeds_capacity :
    1000 < (addEvent 42 (⟨List.replicate 1000 0, none, none⟩ :
      EventStoreState Nat)).events.length ∧
      0 ∈ (addEvent 42 (⟨List.replicate 1000 0, none, none⟩ :
        EventStoreState Nat)).events := by
  constructor
  · show 1000 < (42 :: List.replicate 1000 0).length
    rw [List.length_cons, List.length_replicate]
    omega
  · show 0 ∈ 42 :: List.replicate 1000 0
    exact List.mem_cons_of_mem _ (List.mem_replicate.mpr ⟨by omega, rfl⟩)

/-- C4 (amended): `addEvent` prepends the incoming event, so for every
sequence of incoming events the stored list grows by exactly one per event —
the buffer is unbounded and nothing is ever dropped. -/
theorem add_events_unbounded {α : Type} (es : List α) (s : EventStoreState α) :
    (addEvents es s).events.length = s.events.length + es.length := by
  induction es generalizing s with
  | nil => simp [addEvents]
  | cons e es ih =>
      have h1 : addEvents (e :: es) s = addEvents es (addEvent e s) := rfl
      have h2 := ih (addEvent e s)
      have h3 : (addEvent e s).events.length = s.events.length + 1 := rfl
      rw [h1, h2, h3, List.length_cons]
      omega

/-! Embedding of `src/frontend/src/store/cameraStore.js` (the part the
claims touch). -/

/-- A camera record as the store holds it (the fields relevant to status
updates; ids are abstracted to `Nat`). -/
structure Camera where
  id : Nat
  name : String
  description : Option String
  rtsp_url : String
  status : String
deriving DecidableEq

/-- The camera-list filters kept by the store. -/
structure CameraFilters where
  status : String
  search : String
deriving DecidableEq

/-- The fields of the zustand camera store that `updateCameraStatus` can
see. -/
structure CameraStoreState where
  cameras : List Camera
  selectedCamera : Option Camera
  isLoading : Bool
  error : Option String
  filters : CameraFilters
deriving DecidableEq

/-- cameraStore.js `updateCameraStatus`: maps over `cameras` replacing the
`status` of every camera whose `id` matches, and rewrites `selectedCamera`'s
status too when its id matches; `set` merges, so the remaining store fields
are untouched. -/
def updateCameraStatus (cameraId : Nat) (status : String) (s : CameraStoreState) :
    CameraStoreState :=
  { s with
    cameras := s.cameras.map fun c =>
      if c.id = cameraId then { c with status := status } else c,
    selectedCamera :=
      match s.selectedCamera with
      | some c => if c.id = cameraId then some { c with status := status } else some c
      | none => none }

/-- C10: `updateCameraStatus id st` changes only the `status` field of the
cameras whose id matches (and of `selectedCamera` when its id matches): the
list keeps its length, every camera keeps its id, name, description and URL,
a non-matching camera keeps its status, the matching ones get the new
status, `selectedCamera` follows the same rule, the other store fields are
untouched, and when no camera carries the id the camera list is unchanged. -/
theorem update_camera_status_frame (cameraId : Nat) (status : String)
    (s : CameraStoreState) :
    ((updateCameraStatus cameraId status s).cameras.length = s.cameras.length) ∧
    (∀ (i : Nat) (c : Camera), s.cameras[i]? = some c →
      ∃ c' : Camera, (updateCameraStatus cameraId status s).cameras[i]? = some c' ∧
        c'.id = c.id ∧ c'.name = c.name ∧ c'.description = c.description ∧
        c'.rtsp_url = c.rtsp_url ∧
        c'.status = (if c.id = cameraId then status else c.status)) ∧
    (s.selectedCamera = none → (updateCameraStatus cameraId status s).selectedCamera = none) ∧
    (∀ c : Camera, s.selectedCamera = some c →
      ∃ c' : Camera, (updateCameraStatus cameraId status s).selectedCamera = some c' ∧
        c'.id = c.id ∧ c'.name = c.name ∧ c'.description = c.description ∧
        c'.rtsp_url = c.rtsp_url ∧
        c'.status = (if c.id = cameraId then status else c.status)) ∧
    ((updateCameraStatus cameraId status s).isLoading = s.isLoading) ∧
    ((updateCameraStatus cameraId status s).error = s.error) ∧
    ((updateCameraStatus cameraId status s).filters = s.filters) ∧
    ((∀ c ∈ s.cameras, c.id ≠ cameraId) →
      (updateCameraStatus cameraId status s).cameras = s.cameras) := by
  refine ⟨by simp [updateCameraStatus], ?_, ?_, ?_, rfl, rfl, rfl, ?_⟩
  · intro i c hc
    refine ⟨if c.id = cameraId then { c with status := status } else c, ?_, ?_⟩
    · simp [updateCameraStatus, List.getElem?_map, hc]
    · by_cases h : c.id = cameraId <;> simp [h]
  · intro hnone
    simp [updateCameraStatus, hnone]
  · intro c hc
    refine ⟨if c.id = cameraId then { c with status := status } else c, ?_, ?_⟩
    · by_cases h : c.id = cameraId <;> simp [updateCameraStatus, hc, h]
    · by_cases h : c.id = cameraId <;> simp [h]
  · intro hno
    have hmap : s.cameras.map
        (fun c => if c.id = cameraId then { c with status := status } else c)
        = s.cameras.map id := by
      apply List.map_congr_left
      intro c hc
      simp [hno c hc]
    simp only [updateCameraStatus, hmap, List.map_id]

/-- C10 (witness): the frame theorem applied to a concrete two-camera store,
with each hypothesis discharged at a concrete input. -/
theorem update_camera_status_frame_witness :
    ∃ c', (updateCameraStatus 1 "offline"
        ⟨[⟨1, "cam1", none, "rtsp://a", "online"⟩, ⟨2, "cam2", none, "rtsp://b", "online"⟩],
         none, false, none, ⟨"all", ""⟩⟩).cameras[0]? = some c' ∧
      c'.id = 1 ∧ c'.name = "cam1" ∧ c'.description = none ∧
      c'.rtsp_url = "rtsp://a" ∧
      c'.status = (if (1 : Nat) = 1 then "offline" else "online") :=
  (update_camera_status_frame 1 "offline"
    ⟨[⟨1, "cam1", none, "rtsp://a", "online"⟩, ⟨2, "cam2", none, "rtsp://b", "online"⟩],
     none, false, none, ⟨"all", ""⟩⟩).2.1 0
    ⟨1, "cam1", none, "rtsp://a", "online"⟩ (by decide)

/-! Embedding of `src/frontend/src/utils/validation.js` (`cameraSchema`,
`validateForm`) and of the `handleSubmit` gate in
`src/frontend/src/components/cameras/CameraCard.jsx`. -/

/-- The camera form data as CameraForm submits it.  Optional fields are
`Option`; zod's `.url()` internal test is kept abstract as the parameter
`isUrl` of the functions below. -/
structure CameraFormData where
  name : String
  description : Option String
  rtsp_url : String
  username : Option String
  password : Option String
  location : Option String
  recording_enabled : Option Bool
  motion_detection : Option Bool
  ptz_enabled : Option Bool
  onvif_enabled : Option Bool
  onvif_port : Option Int
  onvif_path : Option String
deriving DecidableEq

/-- validation.js `cameraSchema`: the list of zod issues `(path, message)`
produced by parsing `d`, in schema order.  `name` needs length 1..100;
`description`/`location` are optional with a max length; `rtsp_url` must be
non-empty and a URL; `username`, `password`, the booleans and `onvif_path`
have no failing checks; `onvif_port` is an optional int in 1..65535. -/
def cameraSchemaIssues (isUrl : String → Bool) (d : CameraFormData) :
    List (String × String) :=
  (if d.name.length < 1 then [("name", "Название обязательно")] else []) ++
  (if 100 < d.name.length then [("name", "Максимум 100 символов")] else []) ++
  (match d.description with
   | none => []
   | some s => if 500 < s.length then [("description", "Максимум 500 символов")] else []) ++
  (if d.rtsp_url.length < 1 then [("rtsp_url", "RTSP URL обязателен")] else []) ++
  (if isUrl d.rtsp_url then [] else [("rtsp_url", "Некорректный RTSP URL")]) ++
  (match d.location with
   | none => []
   | some s => if 100 < s.length then [("location", "Максимум 100 символов")] else []) ++
  (match d.onvif_port with
   | none => []
   | some p =>
       (if p < 1 then [("onvif_port", "Порт должен быть от 1 до 65535")] else []) ++
       (if 65535 < p then [("onvif_port", "Порт должен быть от 1 до 65535")] else []))

/-- validation.js `validateForm`: `errors[path] = err.message` — writes a
message under its path, overwriting an earlier message for the same path,
appending a new key otherwise. -/
def setErrorKey (m : List (String × String)) (k v : String) : List (String × String) :=
  if m.any (fun p => p.1 == k) then
    m.map (fun p => if p.1 == k then (k, v) else p)
  else m ++ [(k, v)]

/-- validation.js `validateForm`: the `errors` object built by the
`error.errors.forEach` loop, as an association list in insertion order. -/
def buildErrors (issues : List (String × String)) : List (String × String) :=
  issues.foldl (fun m i => setErrorKey m i.1 i.2) []

/-- The value `validateForm` returns: `{ success: true, errors: null }` or
`{ success: false, errors }`. -/
structure ValidationResult where
  success : Bool
  errors : Option (List (String × String))
deriving DecidableEq

/-- validation.js `validateForm(cameraSchema, d)`: parse succeeds exactly
when the schema produces no issues; on failure the collected issue map is
returned. -/
def validateForm (isUrl : String → Bool) (d : CameraFormData) : ValidationResult :=
  let issues := cameraSchemaIssues isUrl d
  if issues.isEmpty then ⟨true, none⟩
  else ⟨false, some (buildErrors issues)⟩

/-- The form state CameraCard.jsx `handleSubmit` manipulates: the `errors`
component state, and the submitted camera payloads (the
`createCamera`/`updateCamera` calls, abstracted as a list of accepted
configs). -/
structure CameraFormState where
  errors : List (String × String)
  submitted : List CameraFormData
deriving DecidableEq

/-- CameraCard.jsx `handleSubmit`: run `validateForm`; on failure store the
per-field errors and return without submitting anything; on success submit
the whole form data at once. -/
def handleSubmit (isUrl : String → Bool) (d : CameraFormData) (s : CameraFormState) :
    CameraFormState :=
  let v := validateForm isUrl d
  if v.success then { s with submitted := s.submitted ++ [d] }
  else { s with errors := v.errors.getD [] }

/-- The camera-config validity predicate written from the spec's words
(per-field constraints), independent of `cameraSchemaIssues`, for
comparison with the code's validator. -/
def cameraConfigValid (isUrl : String → Bool) (d : CameraFormData) : Prop :=
  1 ≤ d.name.length ∧ d.name.length ≤ 100 ∧
  (∀ s ∈ d.description, s.length ≤ 500) ∧
  1 ≤ d.rtsp_url.length ∧ isUrl d.rtsp_url = true ∧
  (∀ s ∈ d.location, s.length ≤ 100) ∧
  (∀ p ∈ d.onvif_port, 1 ≤ p ∧ p ≤ 65535)

/-- Any error object built from at least one issue is non-empty. -/
theorem buildErrors_ne_nil (i : String × String) (issues : List (String × String)) :
    buildErrors (i :: issues) ≠ [] := by
  suffices h : ∀ (is : List (String × String)) (m : List (String × String)), m ≠ [] →
      is.foldl (fun m j => setErrorKey m j.1 j.2) m ≠ [] by
    have hstart : setErrorKey [] i.1 i.2 ≠ [] := by simp [setErrorKey]
    simpa [buildErrors] using h issues (setErrorKey [] i.1 i.2) hstart
  intro is
  induction is with
  | nil => intro m hm; simpa using hm
  | cons j js ih =>
      intro m hm
      rw [List.foldl_cons]
      apply ih
      show setErrorKey m j.1 j.2 ≠ []
      unfold setErrorKey
      split
      · intro h
        exact hm (by simpa using h)
      · simp

/-- The schema produces no issue exactly on inputs meeting every per-field
constraint. -/
theorem camera_issues_nil_iff (isUrl : String → Bool) (d : CameraFormData) :
    cameraSchemaIssues isUrl d = [] ↔ cameraConfigValid isUrl d := by
  rcases d with ⟨name, desc, url, un, pw, loc, re, md, pz, oe, port, op⟩
  cases desc <;> cases loc <;> cases port <;>
    (simp [cameraSchemaIssues, cameraConfigValid, List.append_eq_nil, not_lt,
      Nat.one_le_iff_ne_zero]; try tauto)

/-- C5: `validateForm(cameraSchema, d)` succeeds exactly when `d` meets the
camera-config constraints; an invalid input is rejected with a non-empty
per-field error map and `handleSubmit` applies nothing — the submitted list
is unchanged, so config application is all-or-nothing — while a valid input
yields success with no errors. -/
theorem validate_form_all_or_nothing (isUrl : String → Bool) (d : CameraFormData)
    (s : CameraFormState) :
    ((validateForm isUrl d).success = true ↔ cameraConfigValid isUrl d) ∧
    ((validateForm isUrl d).success = true → (validateForm isUrl d).errors = none) ∧
    ((validateForm isUrl d).success = false →
      (∃ es, (validateForm isUrl d).errors = some es ∧ es ≠ []) ∧
      (handleSubmit isUrl d s).submitted = s.submitted) := by
  have hiff := camera_issues_nil_iff isUrl d
  cases hiss : cameraSchemaIssues isUrl d with
  | nil =>
      have hv : validateForm isUrl d = ⟨true, none⟩ := by
        simp [validateForm, hiss]
      refine ⟨?_, ?_, ?_⟩
      · rw [hv]
        simpa using hiff.mp hiss
      · intro _
        rw [hv]
      · intro h
        rw [hv] at h
        simp at h
  | cons i is =>
      have hv : validateForm isUrl d = ⟨false, some (buildErrors (i :: is))⟩ := by
        simp [validateForm, hiss]
      refine ⟨?_, ?_, ?_⟩
      · rw [hv]
        constructor
        · intro h
          simp at h
        · intro h
          have := hiff.mpr h
          rw [hiss] at this
          simp at this
      · intro h
        rw [hv] at h
        simp at h
      · intro _
        refine ⟨⟨buildErrors (i :: is), by rw [hv], buildErrors_ne_nil i is⟩, ?_⟩
        simp [handleSubmit, hv]

/-- C5 (witness): the theorem applied to a concrete invalid form (empty name
and empty URL): validation fails with a non-empty error map and nothing is
submitted. -/
theorem validate_form_all_or_nothing_witness :
    (∃ es, (validateForm (fun _ => false)
        ⟨"", none, "", none, none, none, none, none, none, none, none, none⟩).errors =
          some es ∧ es ≠ []) ∧
      (handleSubmit (fun _ => false)
        ⟨"", none, "", none, none, none, none, none, none, none, none, none⟩
        ⟨[], []⟩).submitted = ([] : List CameraFormData) :=
  (validate_form_all_or_nothing (fun _ => false)
    ⟨"", none, "", none, none, none, none, none, none, none, none, none⟩
    ⟨[], []⟩).2.2 (by decide)

/-! Embedding of the `onmessage` dispatch and `onMessage` registration of
`src/frontend/src/hooks/useWebSocket.js`.  Handler functions are abstracted
as numeric ids. -/

/-- A parsed WebSocket message: its `type` tag and (abstracted) payload. -/
structure WsMsg where
  type : String
  payload : Nat
deriving DecidableEq

/-- The three message types the `onmessage` switch routes to the stores
instead of the user handlers. -/
def builtinType (t : String) : Bool :=
  t == "camera_status" || t == "event" || t == "event_update"

/-- The `messageHandlersRef` map: message type to the handlers registered
for it, in registration order (insertion-ordered, like a JS `Map`). -/
abbrev HandlerMap := List (String × List Nat)

/-- Embeds `messageHandlersRef.current.get(data.type) || []`. -/
def getHandlers (hs : HandlerMap) (t : String) : List Nat :=
  match hs.find? (fun p => p.1 == t) with
  | some p => p.2
  | none => []

/-- useWebSocket.js `onMessage`: create the type's entry if absent, then
push the handler at the end of its list. -/
def registerHandler (hs : HandlerMap) (t : String) (h : Nat) : HandlerMap :=
  if hs.any (fun p => p.1 == t) then
    hs.map (fun p => if p.1 == t then (p.1, p.2 ++ [h]) else p)
  else hs ++ [(t, [h])]

/-- useWebSocket.js `onmessage` switch on one message: the three builtin
types go to the stores (no user handler runs); any other type runs
`handlers.forEach((handler) => handler(data))` — every registered handler,
in list order.  The result is the invocation log `(handler, message)`. -/
def dispatchMsg (hs : HandlerMap) (m : WsMsg) : List (Nat × WsMsg) :=
  if builtinType m.type then [] else (getHandlers hs m.type).map (fun h => (h, m))

/-- Messages are dispatched one at a time in arrival order; the full
invocation log of a message sequence. -/
def dispatchAll (hs : HandlerMap) : List WsMsg → List (Nat × WsMsg)
  | [] => []
  | m :: ms => dispatchMsg hs m ++ dispatchAll hs ms

/-- The sequence of messages handler `h` observes, in invocation order. -/
def observes (hs : HandlerMap) (ms : List WsMsg) (h : Nat) : List WsMsg :=
  ((dispatchAll hs ms).filter (fun e => e.1 == h)).map (fun e => e.2)

/-- A handler not in a registration list is never invoked by it. -/
theorem filter_map_pair_of_not_mem (L : List Nat) (m : WsMsg) (h : Nat)
    (hn : h ∉ L) :
    (L.map (fun g => (g, m))).filter (fun e => e.1 == h) = [] := by
  induction L with
  | nil => simp
  | cons g gs ih =>
      have hg : (g == h) = false := by
        simp only [beq_eq_false_iff_ne, ne_eq]
        intro hgh
        exact hn (hgh ▸ List.mem_cons_self g gs)
      simp only [List.map_cons, List.filter_cons, hg]
      exact ih (fun hmem => hn (List.mem_cons_of_mem g hmem))

/-- One message's contribution to what handler `h` observes: the message
itself when `h` is registered for the list (at most once), nothing
otherwise. -/
theorem observes_single_msg (L : List Nat) (m : WsMsg) (h : Nat)
    (hc : L.count h ≤ 1) :
    ((L.map (fun g => (g, m))).filter (fun e => e.1 == h)).map (fun e => e.2)
      = if L.contains h then [m] else [] := by
  induction L with
  | nil => simp
  | cons g gs ih =>
      by_cases hg : g = h
      · subst hg
        have hcnt : gs.count g = 0 := by
          have := List.count_cons_self g gs
          omega
        have hnot : g ∉ gs := by
          simpa using List.count_eq_zero.mp hcnt
        simp [List.filter_cons, filter_map_pair_of_not_mem gs m g hnot]
      · have hgb : (g == h) = false := by simpa using hg
        have hhg : (h == g) = false := by
          simpa using fun hh => hg hh.symm
        have hcnt : gs.count h ≤ 1 := by
          have := List.count_cons h g gs
          simp [hhg] at this
          omega
        have hne : ¬ h = g := fun hh => hg hh.symm
        simp [List.filter_cons, hgb, hhg, ih hcnt, hne]

/-- Each handler registered at most once for a type observes exactly the
arrival-order subsequence of the messages of its types. -/
theorem observes_eq_filter (hs : HandlerMap) (ms : List WsMsg) (h : Nat)
    (hc : ∀ t, (getHandlers hs t).count h ≤ 1) :
    observes hs ms h
      = ms.filter (fun m => !builtinType m.type && (getHandlers hs m.type).contains h) := by
  induction ms with
  | nil => simp [observes, dispatchAll]
  | cons m ms ih =>
      have hsplit : observes hs (m :: ms) h
          = ((dispatchMsg hs m).filter (fun e => e.1 == h)).map (fun e => e.2)
            ++ observes hs ms h := by
        simp [observes, dispatchAll, List.filter_append]
      rw [hsplit, ih, List.filter_cons]
      by_cases hb : builtinType m.type
      · simp [dispatchMsg, hb]
      · have hb' : builtinType m.type = false := by simpa using hb
        have hd : dispatchMsg hs m = (getHandlers hs m.type).map (fun g => (g, m)) := by
          simp [dispatchMsg, hb']
        have hone := observes_single_msg (getHandlers hs m.type) m h (hc m.type)
        rw [hd, hone]
        have hpred : (!builtinType m.type && (getHandlers hs m.type).contains h)
            = (getHandlers hs m.type).contains h := by
          rw [hb']
          simp
        rw [hpred]
        cases hcon : (getHandlers hs m.type).contains h <;> simp [hcon]

/-- C8: messages are dispatched in arrival order and each non-builtin
message invokes every handler registered for its type in registration
order, so the messages any handler observes are exactly the arrival-order
subsequence for its subscribed types, and two handlers subscribed to the
same types observe the same event sequence. -/
theorem dispatch_order_consistent (hs : HandlerMap) (ms : List WsMsg) (h₁ h₂ : Nat)
    (hc₁ : ∀ t, (getHandlers hs t).count h₁ ≤ 1)
    (hc₂ : ∀ t, (getHandlers hs t).count h₂ ≤ 1)
    (hsub : ∀ t, (getHandlers hs t).contains h₁ = (getHandlers hs t).contains h₂) :
    observes hs ms h₁
      = ms.filter (fun m => !builtinType m.type && (getHandlers hs m.type).contains h₁) ∧
    observes hs ms h₁ = observes hs ms h₂ := by
  refine ⟨observes_eq_filter hs ms h₁ hc₁, ?_⟩
  rw [observes_eq_filter hs ms h₁ hc₁, observes_eq_filter hs ms h₂ hc₂]
  apply List.filter_congr
  intro m _
  rw [hsub m.type]

/-- C8 (witness): two handlers both registered (via `onMessage`) for type
"detection", a message sequence mixing builtin and detection messages; the
theorem applied there, its hypotheses discharged concretely. -/
theorem dispatch_order_consistent_witness :
    observes (registerHandler (registerHandler [] "detection" 1) "detection" 2)
        [⟨"detection", 10⟩, ⟨"camera_status", 0⟩, ⟨"detection", 11⟩] 1
      = [⟨"detection", 10⟩, ⟨"camera_status", 0⟩, ⟨"detection", 11⟩].filter
          (fun m => !builtinType m.type &&
            (getHandlers (registerHandler (registerHandler [] "detection" 1)
              "detection" 2) m.type).contains 1) ∧
    observes (registerHandler (registerHandler [] "detection" 1) "detection" 2)
        [⟨"detection", 10⟩, ⟨"camera_status", 0⟩, ⟨"detection", 11⟩] 1
      = observes (registerHandler (registerHandler [] "detection" 1) "detection" 2)
          [⟨"detection", 10⟩, ⟨"camera_status", 0⟩, ⟨"detection", 11⟩] 2 := by
  have hmap : registerHandler (registerHandler [] "detection" 1) "detection" 2
      = [("detection", [1, 2])] := by decide
  refine dispatch_order_consistent _ _ 1 2 ?_ ?_ ?_ <;>
    · intro t
      rw [hmap]
      by_cases ht : ("detection" == t) = true <;>
        simp [getHandlers, List.find?, ht]

/-! Embedding of `formatDuration` and `parseDuration` from
`src/frontend/src/utils/format.js`.  JavaScript strings are embedded as
`List Char`; `String(n)` is decimal rendering and `Number(s)` on a digit
string is decimal parsing. -/

/-- The decimal digit character for `d ≤ 9`. -/
def digitChar : Nat → Char
  | 0 => '0' | 1 => '1' | 2 => '2' | 3 => '3' | 4 => '4'
  | 5 => '5' | 6 => '6' | 7 => '7' | 8 => '8' | 9 => '9'
  | _ => '*'

/-- JavaScript `String(n)` for a non-negative integer: its decimal digits. -/
def natToChars (n : Nat) : List Char :=
  if _h : n < 10 then [digitChar n]
  else natToChars (n / 10) ++ [digitChar (n % 10)]
decreasing_by exact Nat.div_lt_self (by omega) (by omega)

/-- JavaScript `String(x).padStart(2, '0')`. -/
def padStart2 (cs : List Char) : List Char :=
  List.replicate (2 - cs.length) '0' ++ cs

/-- format.js `formatDuration`: `hours = Math.floor(dur.asHours())`,
`minutes = dur.minutes()`, `secs = dur.seconds()`; rendered "H:MM:SS" when
`hours > 0` and "M:SS" otherwise. -/
def formatDuration (seconds : Nat) : List Char :=
  let hours := seconds / 3600
  let minutes := seconds / 60 % 60
  let secs := seconds % 60
  if 0 < hours then
    natToChars hours ++ ':' ::
      (padStart2 (natToChars minutes) ++ ':' :: padStart2 (natToChars secs))
  else
    natToChars minutes ++ ':' :: padStart2 (natToChars secs)

/-- JavaScript `s.split(':')`. -/
def splitOnColon : List Char → List (List Char)
  | [] => [[]]
  | c :: cs =>
      if c = ':' then [] :: splitOnColon cs
      else
        match splitOnColon cs with
        | [] => [[c]]
        | p :: ps => (c :: p) :: ps

/-- JavaScript `Number(s)` on a string of decimal digits. -/
def charsToNat (cs : List Char) : Nat :=
  cs.foldl (fun a c => 10 * a + (c.toNat - 48)) 0

/-- format.js `parseDuration`: split on ':', map `Number`; three parts are
H:MM:SS, two parts M:SS, anything else falls back to the first part. -/
def parseDuration (cs : List Char) : Nat :=
  match (splitOnColon cs).map charsToNat with
  | [a, b, c] => a * 3600 + b * 60 + c
  | [a, b] => a * 60 + b
  | a :: _ => a
  | [] => 0

/-- Every digit below ten renders to a non-colon character that decodes
back to itself. -/
theorem digitChar_spec : ∀ d < 10, digitChar d ≠ ':' ∧ (digitChar d).toNat - 48 = d := by
  decide

/-- Decimal renderings contain no colon. -/
theorem natToChars_no_colon (n : Nat) : ∀ c ∈ natToChars n, c ≠ ':' := by
  induction n using Nat.strong_induction_on with
  | _ n ih =>
    unfold natToChars
    split
    · intro c hc
      rw [List.mem_singleton] at hc
      subst hc
      exact (digitChar_spec n (by omega)).1
    · intro c hc
      rcases List.mem_append.mp hc with h | h
      · exact ih (n / 10) (Nat.div_lt_self (by omega) (by omega)) c h
      · rw [List.mem_singleton] at h
        subst h
        exact (digitChar_spec (n % 10) (Nat.mod_lt n (by omega))).1

/-- A zero-padded digit rendering contains no colon either. -/
theorem padStart2_no_colon (cs : List Char) (h : ∀ c ∈ cs, c ≠ ':') :
    ∀ c ∈ padStart2 cs, c ≠ ':' := by
  intro c hc
  rcases List.mem_append.mp hc with hz | hcs
  · rw [(List.mem_replicate.mp hz).2]
    decide
  · exact h c hcs

/-- Appending one digit multiplies the decoded value by ten. -/
theorem charsToNat_append_digit (xs : List Char) (c : Char) :
    charsToNat (xs ++ [c]) = 10 * charsToNat xs + (c.toNat - 48) := by
  simp [charsToNat, List.foldl_append]

/-- Decimal rendering round-trips through decimal parsing. -/
theorem charsToNat_natToChars (n : Nat) : charsToNat (natToChars n) = n := by
  induction n using Nat.strong_induction_on with
  | _ n ih =>
    unfold natToChars
    split
    · rename_i h
      show 10 * 0 + ((digitChar n).toNat - 48) = n
      rw [(digitChar_spec n h).2]
      omega
    · rename_i h
      rw [charsToNat_append_digit,
        ih (n / 10) (Nat.div_lt_self (by omega) (by omega)),
        (digitChar_spec (n % 10) (Nat.mod_lt n (by omega))).2]
      omega

/-- Leading zero padding does not change the decoded value. -/
theorem charsToNat_padStart2 (cs : List Char) :
    charsToNat (padStart2 cs) = charsToNat cs := by
  unfold padStart2 charsToNat
  rw [List.foldl_append]
  have hzero : ∀ k, List.foldl (fun a c => 10 * a + (c.toNat - 48)) 0
      (List.replicate k '0') = 0 := by
    intro k
    induction k with
    | zero => rfl
    | succ k ihk => simpa [List.replicate_succ] using ihk
  rw [hzero]

/-- Splitting a colon-free string yields that single part. -/
theorem splitOnColon_no_colon (cs : List Char) (h : ∀ c ∈ cs, c ≠ ':') :
    splitOnColon cs = [cs] := by
  induction cs with
  | nil => rfl
  | cons c cs ih =>
      have hc : ¬ c = ':' := h c (List.mem_cons_self c cs)
      have hrest := ih (fun x hx => h x (List.mem_cons_of_mem c hx))
      simp [splitOnColon, hc, hrest]

/-- Splitting at an explicit colon after a colon-free chunk peels that
chunk off. -/
theorem splitOnColon_append (a b : List Char) (ha : ∀ c ∈ a, c ≠ ':') :
    splitOnColon (a ++ ':' :: b) = a :: splitOnColon b := by
  induction a with
  | nil => simp [splitOnColon]
  | cons c cs ih =>
      have hc : ¬ c = ':' := ha c (List.mem_cons_self c cs)
      have hrest := ih (fun x hx => ha x (List.mem_cons_of_mem c hx))
      simp [splitOnColon, hc, hrest]

/-- C9: duration round trip — for every non-negative integer number of
seconds, `parseDuration (formatDuration s) = s`: `formatDuration` renders
"H:MM:SS" or "M:SS" and `parseDuration` inverts both shapes exactly. -/
theorem parse_format_duration (s : Nat) :
    parseDuration (formatDuration s) = s := by
  have hm_pad := padStart2_no_colon _ (natToChars_no_colon (s / 60 % 60))
  have hs_pad := padStart2_no_colon _ (natToChars_no_colon (s % 60))
  by_cases hh : 0 < s / 3600
  · have h1 : formatDuration s
        = natToChars (s / 3600) ++ ':' ::
          (padStart2 (natToChars (s / 60 % 60)) ++ ':' :: padStart2 (natToChars (s % 60))) := by
      simp [formatDuration, hh]
    rw [h1]
    unfold parseDuration
    rw [splitOnColon_append _ _ (natToChars_no_colon (s / 3600)),
      splitOnColon_append _ _ hm_pad, splitOnColon_no_colon _ hs_pad]
    simp only [List.map_cons, List.map_nil]
    rw [charsToNat_natToChars, charsToNat_padStart2, charsToNat_padStart2,
      charsToNat_natToChars, charsToNat_natToChars]
    omega
  · have h1 : formatDuration s
        = natToChars (s / 60 % 60) ++ ':' :: padStart2 (natToChars (s % 60)) := by
      simp [formatDuration, hh]
    rw [h1]
    unfold parseDuration
    rw [splitOnColon_append _ _ (natToChars_no_colon (s / 60 % 60)),
      splitOnColon_no_colon _ hs_pad]
    simp only [List.map_cons, List.map_nil]
    rw [charsToNat_natToChars, charsToNat_padStart2, charsToNat_natToChars]
    omega

/-! The Recorder and its Segment bookkeeping (spec §3, §4.4) have no
implementation under `src/` — only the frontend consumes recordings — so
they are modelled from the spec here. -/

/-- Modelled from the spec: the state of one camera's Recorder, the
component that owns Segment bookkeeping for its camera (spec §4.4, §4.6;
missing from src/).  `now` is the current time, `openSeg` the start time of
the single open segment writer ("maintains one open segment writer at a
time"), `finished` the closed segments' half-open `[start_time, end_time)`
ranges in finalization order. -/
structure RecorderState where
  now : Nat
  openSeg : Option Nat
  finished : List (Nat × Nat)
deriving DecidableEq

/-- Modelled from the spec: the Recorder's transitions — time only moves
forward; a segment opens at the current time when none is open; on a
segment boundary the open segment closes at the current time and its range
is finalized. -/
inductive RecStep : RecorderState → RecorderState → Prop where
  | tick (s : RecorderState) (d : Nat) :
      RecStep s { s with now := s.now + d }
  | openSegment (s : RecorderState) (h : s.openSeg = none) :
      RecStep s { s with openSeg := some s.now }
  | closeSegment (s : RecorderState) (t : Nat) (h : s.openSeg = some t) :
      RecStep s { s with openSeg := none, finished := s.finished ++ [(t, s.now)] }

/-- Modelled from the spec: the Recorder states reachable from the initial
state (time zero, no open writer, nothing finished). -/
inductive RecReach : RecorderState → Prop where
  | init : RecReach ⟨0, none, []⟩
  | step (s t : RecorderState) : RecReach s → RecStep s t → RecReach t

/-- A time instant lying inside a half-open `[start_time, end_time)`
range. -/
def inRange (p : Nat × Nat) (t : Nat) : Prop := p.1 ≤ t ∧ t < p.2

/-- The recorder invariant: finished ranges are chronologically ordered and
end-before-start disjoint, every range is well-formed and in the past, and
an open segment starts after every finished range and not in the future. -/
def RecInv (s : RecorderState) : Prop :=
  s.finished.Pairwise (fun a b => a.2 ≤ b.1) ∧
  (∀ p ∈ s.finished, p.1 ≤ p.2 ∧ p.2 ≤ s.now) ∧
  (∀ t, s.openSeg = some t → (∀ p ∈ s.finished, p.2 ≤ t) ∧ t ≤ s.now)

/-- Every recorder step preserves the invariant. -/
theorem recInv_step (s t : RecorderState) (hinv : RecInv s) (hstep : RecStep s t) :
    RecInv t := by
  obtain ⟨hpair, hbound, hopen⟩ := hinv
  cases hstep with
  | tick d =>
      dsimp only [RecInv]
      refine ⟨hpair, fun p hp => ?_, fun u hu => ?_⟩
      · have := hbound p hp
        exact ⟨this.1, by omega⟩
      · have := hopen u hu
        exact ⟨this.1, by omega⟩
  | openSegment h =>
      dsimp only [RecInv]
      refine ⟨hpair, hbound, fun u hu => ?_⟩
      simp only [Option.some.injEq] at hu
      subst hu
      exact ⟨fun p hp => (hbound p hp).2, le_refl _⟩
  | closeSegment t₀ h =>
      have hall : ∀ p ∈ s.finished, p.2 ≤ t₀ := (hopen t₀ h).1
      have ht₀ : t₀ ≤ s.now := (hopen t₀ h).2
      dsimp only [RecInv]
      refine ⟨?_, ?_, ?_⟩
      · rw [List.pairwise_append]
        refine ⟨hpair, List.pairwise_singleton _ _, ?_⟩
        intro p hp q hq
        rw [List.mem_singleton] at hq
        subst hq
        exact hall p hp
      · intro p hp
        rcases List.mem_append.mp hp with hmem | hmem
        · have := hbound p hmem
          exact ⟨this.1, this.2⟩
        · rw [List.mem_singleton] at hmem
          subst hmem
          exact ⟨ht₀, le_refl _⟩
      · intro u hu
        simp at hu

/-- Every reachable recorder state satisfies the invariant. -/
theorem recReach_inv (s : RecorderState) (h : RecReach s) : RecInv s := by
  induction h with
  | init =>
      refine ⟨List.Pairwise.nil, ?_, ?_⟩ <;> simp
  | step s t _ hstep ih => exact recInv_step s t ih hstep

/-- C6: in every reachable state of the recording pipeline, the half-open
`[start_time, end_time)` ranges of any two distinct finished Segments of
the camera are disjoint — no time instant lies in both. -/
theorem segment_ranges_disjoint (s : RecorderState) (hreach : RecReach s)
    (a b : Nat × Nat) (ha : a ∈ s.finished) (hb : b ∈ s.finished) (hab : a ≠ b)
    (t : Nat) : ¬ (inRange a t ∧ inRange b t) := by
  have hpair := (recReach_inv s hreach).1
  have hsym : (List.Pairwise (fun a b => a.2 ≤ b.1 ∨ b.2 ≤ a.1)) s.finished :=
    hpair.imp (fun h => Or.inl h)
  have hdisj : a.2 ≤ b.1 ∨ b.2 ≤ a.1 :=
    hsym.forall (fun x y h => h.symm) ha hb hab
  intro ⟨hta, htb⟩
  unfold inRange at hta htb
  omega

/-- C6 (witness): a concrete run opening and closing two back-to-back
segments `[0, 5)` and `[5, 8)`; the theorem shows instant 4 cannot lie in
both. -/
theorem segment_ranges_disjoint_witness :
    ¬ (inRange (0, 5) 4 ∧ inRange (5, 8) 4) := by
  have h0 : RecReach ⟨0, none, []⟩ := .init
  have h1 : RecReach ⟨0, some 0, []⟩ := .step _ _ h0 (.openSegment _ rfl)
  have h2 : RecReach ⟨5, some 0, []⟩ := .step _ _ h1 (.tick _ 5)
  have h3 : RecReach ⟨5, none, [(0, 5)]⟩ := .step _ _ h2 (.closeSegment _ 0 rfl)
  have h4 : RecReach ⟨5, some 5, [(0, 5)]⟩ := .step _ _ h3 (.openSegment _ rfl)
  have h5 : RecReach ⟨8, some 5, [(0, 5)]⟩ := .step _ _ h4 (.tick _ 3)
  have h6 : RecReach ⟨8, none, [(0, 5), (5, 8)]⟩ := .step _ _ h5 (.closeSegment _ 5 rfl)
  exact segment_ranges_disjoint _ h6 (0, 5) (5, 8) (by simp) (by simp) (by decide) 4

/-! The Frame Distributor (spec §4.2) has no implementation under `src/`;
its per-consumer bounded channel is modelled from the spec here. -/

/-- Modelled from the spec: one consumer's view of the Frame Distributor
(spec §4.2; missing from src/).  Frames are identified by sequence number:
`nextSeq` is the sequence number the source assigns next, `queue` the
consumer's bounded channel (oldest first), `delivered` the frames the
consumer has taken, in delivery order. -/
structure DistState where
  nextSeq : Nat
  queue : List Nat
  delivered : List Nat
deriving DecidableEq

/-- Modelled from the spec: distributor transitions for one consumer with
channel capacity `cap` and an overflow policy (`dropOldest`, or drop-newest
for the live path): the source produces frames with increasing sequence
numbers, a full channel drops a frame instead of blocking, and the consumer
takes frames from the front of its channel. -/
inductive DistStep (cap : Nat) (dropOldest : Bool) : DistState → DistState → Prop where
  | produce (s : DistState) :
      DistStep cap dropOldest s
        { s with nextSeq := s.nextSeq + 1,
                 queue :=
                   if s.queue.length < cap then s.queue ++ [s.nextSeq]
                   else if dropOldest then s.queue.tail ++ [s.nextSeq]
                   else s.queue }
  | consume (s : DistState) (x : Nat) (rest : List Nat) (h : s.queue = x :: rest) :
      DistStep cap dropOldest s
        { s with queue := rest, delivered := s.delivered ++ [x] }

/-- Modelled from the spec: distributor states reachable from the empty
initial state. -/
inductive DistReach (cap : Nat) (dropOldest : Bool) : DistState → Prop where
  | init : DistReach cap dropOldest ⟨0, [], []⟩
  | step (s t : DistState) : DistReach cap dropOldest s → DistStep cap dropOldest s t →
      DistReach cap dropOldest t

/-- The distributor invariant: everything delivered followed by everything
queued is strictly increasing, and all of it is below the next sequence
number. -/
def DistInv (s : DistState) : Prop :=
  (s.delivered ++ s.queue).Pairwise (· < ·) ∧
  ∀ x ∈ s.delivered ++ s.queue, x < s.nextSeq

/-- Every distributor step preserves the invariant. -/
theorem distInv_step (cap : Nat) (dropOldest : Bool) (s t : DistState)
    (hinv : DistInv s) (hstep : DistStep cap dropOldest s t) : DistInv t := by
  obtain ⟨hpair, hbound⟩ := hinv
  have hgrow : (s.delivered ++ (s.queue ++ [s.nextSeq])).Pairwise (· < ·) := by
    rw [← List.append_assoc, List.pairwise_append]
    refine ⟨hpair, List.pairwise_singleton _ _, ?_⟩
    intro x hx y hy
    rw [List.mem_singleton] at hy
    subst hy
    exact hbound x hx
  cases hstep with
  | produce =>
      dsimp only [DistInv]
      by_cases hlen : s.queue.length < cap
      · constructor
        · simp only [hlen, if_true]
          exact hgrow
        · intro x hx
          simp only [hlen, if_true, ← List.append_assoc] at hx
          rcases List.mem_append.mp hx with hmem | hmem
          · exact lt_trans (hbound x hmem) (by omega)
          · rw [List.mem_singleton] at hmem
            subst hmem
            omega
      · by_cases hpol : dropOldest
        · have hsub : List.Sublist (s.delivered ++ (s.queue.tail ++ [s.nextSeq]))
              (s.delivered ++ (s.queue ++ [s.nextSeq])) :=
            (List.Sublist.refl s.delivered).append
              ((List.tail_sublist s.queue).append (List.Sublist.refl _))
          constructor
          · simp only [hlen, if_false, hpol, if_true]
            exact hgrow.sublist hsub
          · intro x hx
            simp only [hlen, if_false, hpol, if_true] at hx
            have hx' := hsub.mem hx
            rw [← List.append_assoc] at hx'
            rcases List.mem_append.mp hx' with hmem | hmem
            · exact lt_trans (hbound x hmem) (by omega)
            · rw [List.mem_singleton] at hmem
              subst hmem
              omega
        · constructor
          · simpa [hlen, hpol] using hpair
          · intro x hx
            simp only [hlen, if_false, hpol, if_false] at hx
            exact lt_trans (hbound x hx) (by omega)
  | consume x rest h =>
      dsimp only [DistInv]
      constructor
      · have heq : s.delivered ++ [x] ++ rest = s.delivered ++ s.queue := by
          rw [h, List.append_assoc]
          rfl
        rw [heq]
        exact hpair
      · intro y hy
        apply hbound
        rw [h]
        rcases List.mem_append.mp hy with hmem | hmem
        · rcases List.mem_append.mp hmem with hd | hx1
          · exact List.mem_append.mpr (Or.inl hd)
          · rw [List.mem_singleton] at hx1
            subst hx1
            exact List.mem_append.mpr (Or.inr (List.mem_cons_self _ _))
        · exact List.mem_append.mpr (Or.inr (List.mem_cons_of_mem _ hmem))

/-- Every reachable distributor state satisfies the invariant. -/
theorem distReach_inv (cap : Nat) (dropOldest : Bool) (s : DistState)
    (h : DistReach cap dropOldest s) : DistInv s := by
  induction h with
  | init => exact ⟨List.Pairwise.nil, by simp⟩
  | step s t _ hstep ih => exact distInv_step cap dropOldest s t ih hstep

/-- C7: in every execution of the frame distributor, under either overflow
policy and any capacity, the sequence numbers a consumer observes form a
strictly increasing sequence — frames may be dropped but are never
reordered. -/
theorem consumer_delivery_strictly_increasing (cap : Nat) (dropOldest : Bool)
    (s : DistState) (h : DistReach cap dropOldest s) :
    List.Sorted (· < ·) s.delivered := by
  have hinv := (distReach_inv cap dropOldest s h).1
  exact (List.pairwise_append.mp hinv).1

/-- C7 (witness): a drop-oldest consumer of capacity 1 that missed frame 0
(overwritten by frame 1) still observes the strictly increasing sequence
[1, 2]. -/
theorem consumer_delivery_strictly_increasing_witness :
    List.Sorted (· < ·) (DistState.delivered ⟨3, [], [1, 2]⟩) := by
  have h0 : DistReach 1 true ⟨0, [], []⟩ := .init
  have h1 : DistReach 1 true ⟨1, [0], []⟩ := .step _ _ h0 (.produce _)
  have h2 : DistReach 1 true ⟨2, [1], []⟩ := .step _ _ h1 (.produce _)
  have h3 : DistReach 1 true ⟨2, [], [1]⟩ := .step _ _ h2 (.consume _ 1 [] rfl)
  have h4 : DistReach 1 true ⟨3, [2], [1]⟩ := .step _ _ h3 (.produce _)
  have h5 : DistReach 1 true ⟨3, [], [1, 2]⟩ := .step _ _ h4 (.consume _ 2 [] rfl)
  exact consumer_delivery_strictly_increasing 1 true _ h5

end VMS

